import Mathlib

/-!
# PotStack core: shallow embedding and verification

This file embeds the runtime-plane core of the PotStack server (Go) in Lean 4
and proves properties of the embedded definitions.

Modelling conventions:
* Go byte slices (`[]byte`) are `List Nat`, Go strings are `List Char`
  (or `String` where only equality is used, e.g. owner names in the Loader).
* Go maps are association lists (`List (key × value)`) or functions
  `key → Option value`; map iteration order is the list order.
* Fallible Go functions return `Except`/`Option`; I/O reads (files, git
  objects) are passed in as explicit parameters describing their outcome.
* The Ed25519 primitive `ed25519.Verify` is kept abstract: definitions that
  call it take a verification function `pk → data → sig → Bool` as a
  parameter, exactly where the Go code calls into the crypto library.
-/

namespace PotStack

/-! ## Basic string helpers (Go `strings` package fragments) -/

/-- `strings.HasPrefix p l` on `List Char`/byte lists: `hasPre pre l` is
`true` iff `l` starts with `pre`. -/
def hasPre {α : Type} [DecidableEq α] : List α → List α → Bool
  | [], _ => true
  | _ :: _, [] => false
  | a :: pre, b :: l => a = b && hasPre pre l

/-- `strings.TrimPrefix`: drops `pre` from the front of `l` when present. -/
def trimPre {α : Type} [DecidableEq α] (pre l : List α) : List α :=
  if hasPre pre l then l.drop pre.length else l

/-- `strings.Split(l, "/")` specialised to the single separator used by the
code. Faithful to Go: `splitSlash "" = [""]`, `splitSlash "/" = ["", ""]`. -/
def splitSlash : List Char → List (List Char)
  | [] => [[]]
  | c :: rest =>
    match splitSlash rest with
    | [] => [[c]]
    | g :: gs => if c = '/' then [] :: g :: gs else (c :: g) :: gs

@[simp] theorem hasPre_nil {α : Type} [DecidableEq α] (l : List α) :
    hasPre [] l = true := rfl

@[simp] theorem hasPre_cons {α : Type} [DecidableEq α] (a : α) (pre : List α)
    (b : α) (l : List α) :
    hasPre (a :: pre) (b :: l) = (decide (a = b) && hasPre pre l) := rfl

theorem hasPre_append {α : Type} [DecidableEq α] (pre l : List α) :
    hasPre pre (pre ++ l) = true := by
  induction pre with
  | nil => rfl
  | cons a pre ih => simp [hasPre, ih]

theorem hasPre_iff {α : Type} [DecidableEq α] (pre l : List α) :
    hasPre pre l = true ↔ ∃ t, l = pre ++ t := by
  induction pre generalizing l with
  | nil => simp [hasPre]
  | cons a pre ih =>
    cases l with
    | nil => simp [hasPre]
    | cons b l =>
      simp only [hasPre_cons, Bool.and_eq_true, decide_eq_true_eq, ih,
        List.cons_append, List.cons.injEq]
      constructor
      · rintro ⟨rfl, t, rfl⟩; exact ⟨t, rfl, rfl⟩
      · rintro ⟨t, rfl, rfl⟩; exact ⟨rfl, t, rfl⟩

theorem trimPre_append {α : Type} [DecidableEq α] (pre l : List α) :
    trimPre pre (pre ++ l) = l := by
  simp [trimPre, hasPre_append, List.drop_left]

/-! ## Package codec (`internal/loader/format.go`) -/

/-- Parsed `.ppk` header fields used by signature handling
(`PpkHeader` in format.go; magic/version/lengths are checked by
`ParsePpkHeader` before this structure is produced). -/
structure PpkHeader where
  publicKey : List Nat
  signature : List Nat
deriving DecidableEq

/-- Outcomes of `PpkHeader.VerifySignature`. -/
inductive VerifyErr where
  | keyMismatch
  | badSignature
deriving DecidableEq

/-- `(h *PpkHeader) VerifySignature(data, trustedPubKey)` from format.go:
if a non-empty trusted key is supplied it must be byte-equal to the header
key, then the Ed25519 signature over `data` is checked with the header key.
`ed` abstracts `ed25519.Verify (pk, data, sig)`. -/
def VerifySignature (ed : List Nat → List Nat → List Nat → Bool)
    (h : PpkHeader) (data trusted : List Nat) : Except VerifyErr Unit :=
  if trusted.length > 0 ∧ ¬ h.publicKey = trusted then
    .error .keyMismatch
  else if ed h.publicKey data h.signature then
    .ok ()
  else
    .error .badSignature

/-! ## Loader deployment (`internal/loader/loader.go`, `deployPPK`) -/

/-- Lower-case hex digit, as produced by Go's `%x` verb. -/
def hexDigit (d : Nat) : Char :=
  if d < 10 then Char.ofNat ('0'.toNat + d) else Char.ofNat ('a'.toNat + d - 10)

/-- `fmt.Sprintf("%x", bytes)`: two lower-case hex digits per byte. -/
def hexEncode : List Nat → List Char
  | [] => []
  | b :: rest => hexDigit (b / 16 % 16) :: hexDigit (b % 16) :: hexEncode rest

/-- The user store as seen by `deployPPK` through `IUserService`:
`none` means the user does not exist; `some k` is the stored `PublicKey`
string of an existing user (`[]` ↔ Go's `""`, i.e. no pinned key yet). -/
def Store : Type := String → Option (List Char)

/-- Errors surfaced by `deployPPK` in the modelled fragment. -/
inductive DeployErr where
  | selfCheckFailed
  | keyMismatch (owner : String)
  | dockerPullFailed (owner pot : String)
deriving DecidableEq

/-- One pot directory inside an owner directory of the extracted archive.
`dockerPullFails` abstracts the composite condition in deployPPK's deploy
loop: `pot.yml` is readable, names a `docker` image that is not present
locally, and `docker.PullAndTag` fails (which aborts the whole package). -/
structure PotDir where
  name : String
  dockerPullFails : Bool
deriving DecidableEq

/-- A `.ppk` package after header parsing, as consumed by `deployPPK`:
the header fields, the raw content bytes, and the extracted inner tree
(top-level owner directories, each holding pot directories, in the
`os.ReadDir` scan order). -/
structure PpkPackage where
  header : PpkHeader
  content : List Nat
  owners : List (String × List PotDir)

/-- Point update of the user store (the effect of `CreateUser` /
`SetUserPublicKey` on the owner's `PublicKey` column). -/
def setKey (store : Store) (o : String) (v : List Char) : Store :=
  fun y => if y = o then some v else store y

/-- The TOFU/pinning loop of `deployPPK` (loader.go, first owner loop):
for each top-level owner directory, get-or-create the user (a fresh user has
an empty `PublicKey`), then either record the hex-encoded header key
(TOFU, when no key is pinned yet) or require equality with the pinned key;
a mismatch aborts with that owner.  Returns the store as mutated so far
together with the first mismatching owner, if any. -/
def tofuScan (hexKey : List Char) : Store → List String → Store × Option String
  | store, [] => (store, none)
  | store, owner :: rest =>
    if (store owner).getD [] = [] then
      tofuScan hexKey
        (setKey (setKey store owner ((store owner).getD [])) owner hexKey) rest
    else if (store owner).getD [] = hexKey then
      tofuScan hexKey (setKey store owner ((store owner).getD [])) rest
    else
      (setKey store owner ((store owner).getD []), some owner)

/-- The deploy loop of `deployPPK` (loader.go, second owner loop): walk
`owner/pot` directories in order; a failing docker pre-pull aborts the
package; otherwise `pushToRepo(owner, pot)` is invoked (its own failures are
only logged).  Returns the invoked pushes and the abort error, if any. -/
def pushScan : List (String × List PotDir) → List (String × String) × Option DeployErr
  | [] => ([], none)
  | (owner, pots) :: rest =>
    match pushOwner owner pots with
    | (pushes, some e) => (pushes, some e)
    | (pushes, none) =>
      match pushScan rest with
      | (more, res) => (pushes ++ more, res)
where
  pushOwner (owner : String) : List PotDir → List (String × String) × Option DeployErr
    | [] => ([], none)
    | pot :: pots =>
      if pot.dockerPullFails then
        ([], some (.dockerPullFailed owner pot.name))
      else
        match pushOwner owner pots with
        | (pushes, res) => ((owner, pot.name) :: pushes, res)

/-- Result of `deployPPK`: the returned error (if any), the user store after
the call, and the `pushToRepo` invocations it performed. -/
structure DeployResult where
  err : Option DeployErr
  store : Store
  pushes : List (String × String)

/-- `deployPPK` (loader.go) over the extracted package tree: self-check the
signature against the header's own public key, run the TOFU/pinning loop
over all owner directories, and only if that completes run the deploy loop
that pushes every pot to its bare repository. -/
def deployPPK (ed : List Nat → List Nat → List Nat → Bool)
    (store : Store) (pkg : PpkPackage) : DeployResult :=
  match VerifySignature ed pkg.header pkg.content pkg.header.publicKey with
  | .error _ => ⟨some .selfCheckFailed, store, []⟩
  | .ok () =>
    let hexKey := hexEncode pkg.header.publicKey
    match tofuScan hexKey store (pkg.owners.map Prod.fst) with
    | (store1, some owner) => ⟨some (.keyMismatch owner), store1, []⟩
    | (store1, none) =>
      match pushScan pkg.owners with
      | (pushes, res) => ⟨res, store1, pushes⟩

@[simp] theorem setKey_self (store : Store) (o : String) (v : List Char) :
    setKey store o v o = some v := by simp [setKey]

theorem setKey_ne (store : Store) (o : String) (v : List Char) {y : String}
    (h : y ≠ o) : setKey store o v y = store y := by simp [setKey, h]

theorem getD_ne_nil {store : Store} {x : String}
    (hk : (store x).getD [] ≠ []) : store x = some ((store x).getD []) := by
  cases hs : store x with
  | none => rw [hs] at hk; simp at hk
  | some v => simp

theorem tofuScan_mismatch (hexKey k : List Char) (owner : String) :
    ∀ (owners : List String) (store : Store), owner ∈ owners →
      store owner = some k → k ≠ [] → k ≠ hexKey →
      (tofuScan hexKey store owners).2.isSome := by
  intro owners
  induction owners with
  | nil => intro store h; cases h
  | cons o rest ih =>
    intro store hmem hst hk1 hk2
    by_cases ho : o = owner
    · subst ho
      have hcur : (store o).getD [] = k := by rw [hst]; rfl
      simp only [tofuScan, hcur]
      rw [if_neg hk1, if_neg hk2]
      rfl
    · have hmem' : owner ∈ rest := by
        rcases List.mem_cons.mp hmem with h | h
        · exact absurd h.symm ho
        · exact h
      have hne : owner ≠ o := fun h => ho h.symm
      simp only [tofuScan]
      by_cases hc : (store o).getD [] = []
      · rw [if_pos hc]
        exact ih _ hmem' (by rw [setKey_ne _ _ _ hne, setKey_ne _ _ _ hne, hst])
          hk1 hk2
      · rw [if_neg hc]
        by_cases hh : (store o).getD [] = hexKey
        · rw [if_pos hh]
          exact ih _ hmem' (by rw [setKey_ne _ _ _ hne, hst]) hk1 hk2
        · rw [if_neg hh]; rfl

theorem tofuScan_preserve (hexKey : List Char) :
    ∀ (owners : List String) (store : Store) (x : String),
      (tofuScan hexKey store owners).1 x = store x ∨
      (tofuScan hexKey store owners).1 x = some hexKey := by
  intro owners
  induction owners with
  | nil => intro store x; exact Or.inl rfl
  | cons o rest ih =>
    intro store x
    simp only [tofuScan]
    by_cases hc : (store o).getD [] = []
    · rw [if_pos hc]
      rcases ih (setKey (setKey store o ((store o).getD [])) o hexKey) x
          with h | h
      · by_cases hx : x = o
        · right; rw [h, hx, setKey_self]
        · left; rw [h, setKey_ne _ _ _ hx, setKey_ne _ _ _ hx]
      · right; exact h
    · rw [if_neg hc]
      have hso := getD_ne_nil hc
      by_cases hh : (store o).getD [] = hexKey
      · rw [if_pos hh]
        rcases ih (setKey store o ((store o).getD [])) x with h | h
        · by_cases hx : x = o
          · left; rw [h, hx, setKey_self, ← hso]
          · left; rw [h, setKey_ne _ _ _ hx]
        · right; exact h
      · rw [if_neg hh]
        by_cases hx : x = o
        · left; show setKey store o ((store o).getD []) x = store x
          rw [hx, setKey_self, ← hso]
        · left; exact setKey_ne _ _ _ hx

theorem tofuScan_writes (hexKey : List Char) :
    ∀ (owners : List String) (store : Store) (owner : String), owner ∈ owners →
      (store owner = none ∨ store owner = some []) →
      (tofuScan hexKey store owners).2 = none →
      (tofuScan hexKey store owners).1 owner = some hexKey := by
  intro owners
  induction owners with
  | nil => intro store owner h; cases h
  | cons o rest ih =>
    intro store owner hmem hun hok
    by_cases ho : o = owner
    · subst ho
      have hcur : (store o).getD [] = [] := by
        rcases hun with h | h <;> simp [h]
      simp only [tofuScan, hcur, if_pos] at hok ⊢
      rcases tofuScan_preserve hexKey rest
          (setKey (setKey store o []) o hexKey) o with h | h
      · rw [h, setKey_self]
      · exact h
    · have hmem' : owner ∈ rest := by
        rcases List.mem_cons.mp hmem with h | h
        · exact absurd h.symm ho
        · exact h
      have hne : owner ≠ o := fun h => ho h.symm
      simp only [tofuScan] at hok ⊢
      by_cases hc : (store o).getD [] = []
      · rw [if_pos hc] at hok ⊢
        refine ih _ owner hmem' ?_ hok
        rw [setKey_ne _ _ _ hne, setKey_ne _ _ _ hne]; exact hun
      · rw [if_neg hc] at hok ⊢
        by_cases hh : (store o).getD [] = hexKey
        · rw [if_pos hh] at hok ⊢
          refine ih _ owner hmem' ?_ hok
          rw [setKey_ne _ _ _ hne]; exact hun
        · rw [if_neg hh] at hok; cases hok

theorem tofuScan_ok (hexKey : List Char) :
    ∀ (owners : List String) (store : Store),
      (∀ o k, o ∈ owners → store o = some k → k = [] ∨ k = hexKey) →
      (tofuScan hexKey store owners).2 = none := by
  intro owners
  induction owners with
  | nil => intro store _; rfl
  | cons o rest ih =>
    intro store hyp
    simp only [tofuScan]
    by_cases hc : (store o).getD [] = []
    · rw [if_pos hc]
      apply ih
      intro o' k ho' hk
      by_cases he : o' = o
      · rw [he, setKey_self] at hk
        right; exact (Option.some.injEq _ _ ▸ hk :).symm
      · rw [setKey_ne _ _ _ he, setKey_ne _ _ _ he] at hk
        exact hyp o' k (List.mem_cons_of_mem _ ho') hk
    · rw [if_neg hc]
      have hso := getD_ne_nil hc
      rcases hyp o ((store o).getD []) (List.mem_cons_self _ _) hso with h | h
      · exact absurd h hc
      · rw [if_pos h]
        apply ih
        intro o' k ho' hk
        by_cases he : o' = o
        · rw [he, setKey_self] at hk
          have : (store o).getD [] = k := Option.some.injEq _ _ ▸ hk
          right; rw [← this]; exact h
        · rw [setKey_ne _ _ _ he] at hk
          exact hyp o' k (List.mem_cons_of_mem _ ho') hk

/-! ## Claim C2: `VerifySignature` -/

/-- C2: for every parsed header `h`, content `d` and optional expected key
`k`, `VerifySignature` succeeds iff (`k` is empty or byte-equal to
`h.publicKey`) and the Ed25519 signature `h.signature` verifies over `d`
under `h.publicKey`; a non-empty `k` differing from `h.publicKey` yields a
key-mismatch error without the signature being accepted. -/
theorem VerifySignature_spec
    (ed : List Nat → List Nat → List Nat → Bool) (h : PpkHeader)
    (d k : List Nat) :
    (VerifySignature ed h d k = .ok () ↔
      ((k = [] ∨ k = h.publicKey) ∧ ed h.publicKey d h.signature = true)) ∧
    (k ≠ [] → k ≠ h.publicKey →
      VerifySignature ed h d k = .error .keyMismatch) := by
  constructor
  · constructor
    · intro hok
      unfold VerifySignature at hok
      split at hok
      · cases hok
      · rename_i hcond
        split at hok
        · rename_i hed
          refine ⟨?_, hed⟩
          by_cases hk : k = []
          · exact Or.inl hk
          · right
            by_contra hne
            exact hcond ⟨List.length_pos.mpr hk, fun he => hne he.symm⟩
        · cases hok
    · rintro ⟨hor, hed⟩
      unfold VerifySignature
      rw [if_neg ?_, if_pos hed]
      rcases hor with rfl | rfl
      · simp
      · rintro ⟨_, hne⟩; exact hne rfl
  · intro h1 h2
    unfold VerifySignature
    rw [if_pos ⟨List.length_pos.mpr h1, fun he => h2 he.symm⟩]

/-- Witness for C2 at a concrete input: a non-empty expected key differing
from the header key is rejected as a key mismatch. -/
theorem VerifySignature_spec_witness :
    VerifySignature (fun _ _ _ => true) ⟨[1], []⟩ [] [2] =
      .error .keyMismatch :=
  (VerifySignature_spec (fun _ _ _ => true) ⟨[1], []⟩ [] [2]).2
    (by decide) (by decide)

/-! ## Claim C1: TOFU pinning in `deployPPK` -/

/-- C1 (amended): for a package whose self-check signature verification
succeeds, (a) if any top-level owner has a pinned key differing from the
hex-encoded header key, `deployPPK` returns a key-mismatch error and
`pushToRepo` is never invoked for any pot of the package; (b) if no owner's
pinned key conflicts, every owner with no pinned key has the hex-encoded
header key written as its pinned key (TOFU).  (The unamended claim also
asserted the TOFU write for owners scanned after a mismatching one, which
the code skips by aborting; see the counterexample.) -/
theorem deployPPK_tofu_pinning
    (ed : List Nat → List Nat → List Nat → Bool) (store : Store)
    (pkg : PpkPackage)
    (hsig : VerifySignature ed pkg.header pkg.content pkg.header.publicKey
      = .ok ()) :
    (∀ owner k, owner ∈ pkg.owners.map Prod.fst → store owner = some k →
      k ≠ [] → k ≠ hexEncode pkg.header.publicKey →
      (∃ o', (deployPPK ed store pkg).err = some (.keyMismatch o')) ∧
        (deployPPK ed store pkg).pushes = []) ∧
    ((∀ owner k, owner ∈ pkg.owners.map Prod.fst → store owner = some k →
        k = [] ∨ k = hexEncode pkg.header.publicKey) →
      ∀ owner, owner ∈ pkg.owners.map Prod.fst →
        (store owner = none ∨ store owner = some []) →
        (deployPPK ed store pkg).store owner
          = some (hexEncode pkg.header.publicKey)) := by
  constructor
  · intro owner k hmem hst hk1 hk2
    have hms := tofuScan_mismatch (hexEncode pkg.header.publicKey) k owner
      (pkg.owners.map Prod.fst) store hmem hst hk1 hk2
    rcases htt : tofuScan (hexEncode pkg.header.publicKey) store
        (pkg.owners.map Prod.fst) with ⟨s1, os⟩
    rw [htt] at hms
    cases os with
    | none => simp at hms
    | some o' =>
      simp only [deployPPK, hsig, htt]
      exact ⟨⟨o', rfl⟩, trivial⟩
  · intro hnomis owner hmem hun
    have hok := tofuScan_ok (hexEncode pkg.header.publicKey)
      (pkg.owners.map Prod.fst) store hnomis
    have hw := tofuScan_writes (hexEncode pkg.header.publicKey)
      (pkg.owners.map Prod.fst) store owner hmem hun hok
    rcases htt : tofuScan (hexEncode pkg.header.publicKey) store
        (pkg.owners.map Prod.fst) with ⟨s1, os⟩
    rw [htt] at hok hw
    cases hok
    rcases hps : pushScan pkg.owners with ⟨pushes, res⟩
    simp only [deployPPK, hsig, htt, hps]
    exact hw

/-- Store with owner `a` pinned to a key that is not the hex encoding of
the header key `[0]`, and owner `b` absent. -/
def mismatchStore : Store := fun o => if o = "a" then some ['f', 'f'] else none

/-- Package signed with key `[0]` whose archive holds owner directories
`a` (scanned first) and `b`. -/
def mismatchPkg : PpkPackage :=
  { header := { publicKey := [0], signature := [] }
    content := []
    owners := [("a", []), ("b", [])] }

/-- Counterexample to C1 as stated: owner `b` has no pinned key, yet after
`deployPPK` (which aborts at owner `a`'s mismatch) the hex-encoded header
key has not been written for `b`. -/
theorem deployPPK_tofu_counterexample :
    "b" ∈ mismatchPkg.owners.map Prod.fst ∧
    mismatchStore "b" = none ∧
    (deployPPK (fun _ _ _ => true) mismatchStore mismatchPkg).store "b" ≠
      some (hexEncode mismatchPkg.header.publicKey) := by
  refine ⟨by decide, by decide, ?_⟩
  decide

/-- Single-owner package used by the C1 witness. -/
def tofuPkg : PpkPackage :=
  { header := { publicKey := [0], signature := [] }
    content := []
    owners := [("a", [])] }

/-- Witness for C1 at a concrete input: against an empty store, deploying
`tofuPkg` pins owner `a` to the hex encoding of the header key. -/
theorem deployPPK_tofu_pinning_witness :
    (deployPPK (fun _ _ _ => true) (fun _ => none) tofuPkg).store "a" =
      some (hexEncode [0]) := by
  have h := deployPPK_tofu_pinning (fun _ _ _ => true) (fun _ => none)
    tofuPkg (by rfl)
  exact h.2 (by intro owner k _ hk; exact absurd hk (by simp)) "a"
    (by decide) (Or.inl rfl)

/-! ## Dynamic router (`internal/router/router.go`)

`pathRoutes` and `sandboxRoutes` are Go maps; they are embedded as
association lists (`alookup`/`ainsert`/`aerase` give map semantics), and
`ServeHTTP`'s map iteration scans the list.  Paths are `List Char`. -/

/-- Map lookup on an association list. -/
def alookup {α : Type} : List (List Char × α) → List Char → Option α
  | [], _ => none
  | (k', v) :: rest, k => if k' = k then some v else alookup rest k

/-- Map assignment `m[k] = v`: replace the binding if present, else add. -/
def ainsert {α : Type} : List (List Char × α) → List Char → α →
    List (List Char × α)
  | [], k, v => [(k, v)]
  | e :: rest, k, v =>
    if e.1 = k then (k, v) :: rest else e :: ainsert rest k v

/-- Map deletion `delete(m, k)`. -/
def aerase {α : Type} (l : List (List Char × α)) (k : List Char) :
    List (List Char × α) :=
  l.filter (fun e => ¬ e.1 = k)

/-- `pot.yml` fields used by the router (`models.PotConfig`; the remaining
descriptive fields are ignored by the modelled code). -/
structure PotConfig where
  ptype : List Char
  root : List Char
deriving DecidableEq

/-- `run.yml` fields used by the modelled code (`models.RunConfig`):
`target_status` is a free-form string in the yaml, and `runtime.port` is
the field `RegisterExe` reads. -/
structure RunConfig where
  targetStatus : List Char
  port : Nat
deriving DecidableEq

/-- Router handlers.  `staticH` is `resource.NewStaticHandler(repoRoot,
org, name, root)` (the repo root is a fixed field of the router and is
omitted); `proxyH` is `httputil.NewSingleHostReverseProxy` at
`127.0.0.1:port`; the two `strip*` wrappers are the rewriting closures of
`stripPrefixHandler` / `stripOrgNameHandler`. -/
inductive RHandler where
  | staticH (org name root : List Char)
  | proxyH (port : Nat)
  | stripPre (pre : List Char) (inner : RHandler)
  | stripOrgName (org name : List Char) (inner : RHandler)
deriving DecidableEq

/-- Router state: the two maps guarded by `r.mu`. -/
structure RouterState where
  pathRoutes : List (List Char × RHandler)
  sandboxRoutes : List (List Char × List (List Char))
deriving DecidableEq

/-- `NewRouter`. -/
def initRouter : RouterState := ⟨[], []⟩

def potTag : List Char := ['/', 'p', 'o', 't', '/']
def apiTag : List Char := ['/', 'a', 'p', 'i', '/']
def webTag : List Char := ['/', 'w', 'e', 'b', '/']
def adminTag : List Char := ['/', 'a', 'd', 'm', 'i', 'n', '/']
def pathTag : List Char := ['P', 'A', 'T', 'H', ':']

/-- The `org/name` key of `sandboxRoutes`. -/
def potKey (org pname : List Char) : List Char := org ++ '/' :: pname

/-- The four path prefixes registered for a sandbox key
(`fmt.Sprintf("/pot/%s/%s", org, name)` etc.). -/
def prefixesOf (key : List Char) : List (List Char) :=
  [potTag ++ key, apiTag ++ key, webTag ++ key, adminTag ++ key]

/-- The `registeredKeys` value stored in `sandboxRoutes`. -/
def routeKeys (key : List Char) : List (List Char) :=
  (prefixesOf key).map (fun p => pathTag ++ p)

/-- `registerThreeRoutesInternal`: install the four prefixes (each with its
rewrite wrapper) and record them under the sandbox key. -/
def registerThreeRoutesInternal (s : RouterState) (org pname : List Char)
    (handler : RHandler) : RouterState :=
  { pathRoutes :=
      ainsert (ainsert (ainsert (ainsert s.pathRoutes
        (potTag ++ potKey org pname)
        (.stripPre (potTag ++ potKey org pname) handler))
        (apiTag ++ potKey org pname) (.stripOrgName org pname handler))
        (webTag ++ potKey org pname) (.stripOrgName org pname handler))
        (adminTag ++ potKey org pname) (.stripOrgName org pname handler)
    sandboxRoutes :=
      ainsert s.sandboxRoutes (potKey org pname) (routeKeys (potKey org pname)) }

/-- `removeRoutesInternal`: erase every recorded `PATH:`-tagged prefix of
the sandbox, then the sandbox entry itself. -/
def removeRoutesInternal (s : RouterState) (org pname : List Char) :
    RouterState :=
  match alookup s.sandboxRoutes (potKey org pname) with
  | none => s
  | some keys =>
    { pathRoutes :=
        (keys.filter (fun k => hasPre pathTag k)).foldl
          (fun pr k => aerase pr (trimPre pathTag k)) s.pathRoutes
      sandboxRoutes := aerase s.sandboxRoutes (potKey org pname) }

/-- `RegisterStatic`: clear old routes, then register a static handler for
the four prefixes.  (The Go function returns `error` but always `nil`.) -/
def RegisterStatic (s : RouterState) (org pname : List Char)
    (potCfg : PotConfig) : RouterState :=
  registerThreeRoutesInternal (removeRoutesInternal s org pname) org pname
    (.staticH org pname potCfg.root)

/-- Errors of `RegisterExe`. -/
inductive RegErr where
  | runYmlNotFound
  | yamlError
  | noPort
deriving DecidableEq

/-- Outcome of reading and unmarshalling `run.yml` inside `RegisterExe`
(`os.ReadFile` failure vs `yaml.Unmarshal` failure). -/
inductive RunRead where
  | notFound
  | parseError
  | ok (rc : RunConfig)
deriving DecidableEq

/-- `RegisterExe`: clear old routes first, then read `run.yml`; a missing
or unparseable file or a zero port is an error (leaving the routes
removed); otherwise install a reverse proxy at the recorded port. -/
def RegisterExe (s : RouterState) (org pname : List Char)
    (readRun : RunRead) : Except RegErr Unit × RouterState :=
  let s1 := removeRoutesInternal s org pname
  match readRun with
  | .notFound => (.error .runYmlNotFound, s1)
  | .parseError => (.error .yamlError, s1)
  | .ok rc =>
    if rc.port = 0 then (.error .noPort, s1)
    else (.ok (), registerThreeRoutesInternal s1 org pname (.proxyH rc.port))

/-- `RemoveRoutes`. -/
def RemoveRoutes (s : RouterState) (org pname : List Char) : RouterState :=
  removeRoutesInternal s org pname

/-- The route-mutating operations of the router's public interface; the
`regExe` payload carries the outcome of its `run.yml` read. -/
inductive RouterOp where
  | regStatic (org pname : List Char) (potCfg : PotConfig)
  | regExe (org pname : List Char) (readRun : RunRead)
  | removeR (org pname : List Char)

def applyOp (s : RouterState) : RouterOp → RouterState
  | .regStatic org pname potCfg => RegisterStatic s org pname potCfg
  | .regExe org pname readRun => (RegisterExe s org pname readRun).2
  | .removeR org pname => RemoveRoutes s org pname

/-- A reachable router state: `NewRouter` followed by a sequence of
registrations and removals. -/
def applyOps (ops : List RouterOp) : RouterState :=
  ops.foldl applyOp initRouter

/-- `ServeHTTP`'s longest-prefix scan over `pathRoutes`: keep the longest
registered prefix of the request path; `none` is `http.NotFound`. -/
def serveHTTP (s : RouterState) (path : List Char) : Option RHandler :=
  (s.pathRoutes.foldl
    (fun best e =>
      if hasPre e.1 path && decide (best.1.length < e.1.length) then
        (e.1, some e.2)
      else best)
    ([], none)).2

/-! ### Association-list map lemmas -/

theorem alookup_ainsert_self {α : Type} (l : List (List Char × α))
    (k : List Char) (v : α) : alookup (ainsert l k v) k = some v := by
  induction l with
  | nil => simp [ainsert, alookup]
  | cons e rest ih =>
    by_cases he : e.1 = k
    · simp [ainsert, he, alookup]
    · simp only [ainsert, if_neg he, alookup, if_neg he]
      exact ih

theorem alookup_ainsert_ne {α : Type} (l : List (List Char × α))
    (k : List Char) (v : α) {k' : List Char} (h : k' ≠ k) :
    alookup (ainsert l k v) k' = alookup l k' := by
  induction l with
  | nil =>
    simp only [ainsert, alookup]
    rw [if_neg (fun he => h he.symm)]
  | cons e rest ih =>
    by_cases he : e.1 = k
    · simp only [ainsert, if_pos he, alookup]
      rw [if_neg (fun hk => h hk.symm),
        if_neg (show ¬ e.1 = k' by rw [he]; exact fun hk => h hk.symm)]
    · simp only [ainsert, if_neg he, alookup]
      by_cases he' : e.1 = k'
      · rw [if_pos he', if_pos he']
      · rw [if_neg he', if_neg he']
        exact ih

theorem alookup_aerase_self {α : Type} (l : List (List Char × α))
    (k : List Char) : alookup (aerase l k) k = none := by
  induction l with
  | nil => rfl
  | cons e rest ih =>
    by_cases he : e.1 = k
    · simpa [aerase, he] using ih
    · simpa [aerase, he, alookup, if_neg he] using ih

theorem alookup_aerase_ne {α : Type} (l : List (List Char × α))
    (k : List Char) {k' : List Char} (h : k' ≠ k) :
    alookup (aerase l k) k' = alookup l k' := by
  induction l with
  | nil => rfl
  | cons e rest ih =>
    by_cases he : e.1 = k
    · rw [show aerase (e :: rest) k = aerase rest k by simp [aerase, he]]
      rw [ih]
      simp only [alookup]
      rw [if_neg (by rw [he]; exact fun hk => h hk.symm)]
    · rw [show aerase (e :: rest) k = e :: aerase rest k by simp [aerase, he]]
      simp only [alookup]
      by_cases he' : e.1 = k'
      · rw [if_pos he', if_pos he']
      · rw [if_neg he', if_neg he', ih]

/-! ### Prefix disjointness and the all-or-none route invariant -/

theorem prefixesOf_inj {k1 k2 p : List Char} (h1 : p ∈ prefixesOf k1)
    (h2 : p ∈ prefixesOf k2) : k1 = k2 := by
  simp only [prefixesOf, List.mem_cons, List.not_mem_nil, or_false] at h1 h2
  rcases h1 with rfl | rfl | rfl | rfl <;>
    rcases h2 with h2 | h2 | h2 | h2 <;>
    first
      | exact List.append_cancel_left h2
      | simp [potTag, apiTag, webTag, adminTag] at h2

/-- The four erasures performed by `removeRoutesInternal` when the sandbox
entry is present. -/
def erase4 (l : List (List Char × RHandler)) (key : List Char) :
    List (List Char × RHandler) :=
  aerase (aerase (aerase (aerase l
    (potTag ++ key)) (apiTag ++ key)) (webTag ++ key)) (adminTag ++ key)

theorem removeRoutesInternal_some {s : RouterState} {org pname : List Char}
    (h : alookup s.sandboxRoutes (potKey org pname)
      = some (routeKeys (potKey org pname))) :
    removeRoutesInternal s org pname =
      { pathRoutes := erase4 s.pathRoutes (potKey org pname)
        sandboxRoutes := aerase s.sandboxRoutes (potKey org pname) } := by
  unfold removeRoutesInternal
  rw [h]
  simp [routeKeys, prefixesOf, List.filter, List.foldl, hasPre_append,
    trimPre_append, erase4]

theorem removeRoutesInternal_none {s : RouterState} {org pname : List Char}
    (h : alookup s.sandboxRoutes (potKey org pname) = none) :
    removeRoutesInternal s org pname = s := by
  unfold removeRoutesInternal
  rw [h]

theorem alookup_aerase_none {α : Type} {l : List (List Char × α)}
    {k p : List Char} (h : alookup l p = none) :
    alookup (aerase l k) p = none := by
  by_cases hp : p = k
  · rw [hp]; exact alookup_aerase_self l k
  · rw [alookup_aerase_ne l k hp]; exact h

theorem erase4_self {l : List (List Char × RHandler)} {key p : List Char}
    (hp : p ∈ prefixesOf key) : alookup (erase4 l key) p = none := by
  simp only [prefixesOf, List.mem_cons, List.not_mem_nil, or_false] at hp
  unfold erase4
  rcases hp with rfl | rfl | rfl | rfl
  · rw [alookup_aerase_ne _ _ (by simp [potTag, adminTag]),
      alookup_aerase_ne _ _ (by simp [potTag, webTag]),
      alookup_aerase_ne _ _ (by simp [potTag, apiTag]),
      alookup_aerase_self]
  · rw [alookup_aerase_ne _ _ (by simp [apiTag, adminTag]),
      alookup_aerase_ne _ _ (by simp [apiTag, webTag]),
      alookup_aerase_self]
  · rw [alookup_aerase_ne _ _ (by simp [webTag, adminTag]),
      alookup_aerase_self]
  · rw [alookup_aerase_self]

theorem erase4_other {l : List (List Char × RHandler)} {key key' p : List Char}
    (hne : key' ≠ key) (hp : p ∈ prefixesOf key') :
    alookup (erase4 l key) p = alookup l p := by
  have hd : ∀ t : List Char, (t ++ key) ∈ prefixesOf key → p ≠ t ++ key :=
    fun t ht h => hne (prefixesOf_inj hp (h ▸ ht))
  unfold erase4
  rw [alookup_aerase_ne _ _ (hd adminTag (by simp [prefixesOf])),
    alookup_aerase_ne _ _ (hd webTag (by simp [prefixesOf])),
    alookup_aerase_ne _ _ (hd apiTag (by simp [prefixesOf])),
    alookup_aerase_ne _ _ (hd potTag (by simp [prefixesOf]))]

theorem insert4_self {s : RouterState} {org pname p : List Char}
    (handler : RHandler) (hp : p ∈ prefixesOf (potKey org pname)) :
    alookup (registerThreeRoutesInternal s org pname handler).pathRoutes p
      ≠ none := by
  simp only [prefixesOf, List.mem_cons, List.not_mem_nil, or_false] at hp
  unfold registerThreeRoutesInternal
  rcases hp with rfl | rfl | rfl | rfl
  · rw [alookup_ainsert_ne _ _ _ (by simp [potTag, adminTag]),
      alookup_ainsert_ne _ _ _ (by simp [potTag, webTag]),
      alookup_ainsert_ne _ _ _ (by simp [potTag, apiTag]),
      alookup_ainsert_self]
    exact fun h => by cases h
  · rw [alookup_ainsert_ne _ _ _ (by simp [apiTag, adminTag]),
      alookup_ainsert_ne _ _ _ (by simp [apiTag, webTag]),
      alookup_ainsert_self]
    exact fun h => by cases h
  · rw [alookup_ainsert_ne _ _ _ (by simp [webTag, adminTag]),
      alookup_ainsert_self]
    exact fun h => by cases h
  · rw [alookup_ainsert_self]
    exact fun h => by cases h

theorem insert4_other {s : RouterState} {org pname key' p : List Char}
    (handler : RHandler) (hne : key' ≠ potKey org pname)
    (hp : p ∈ prefixesOf key') :
    alookup (registerThreeRoutesInternal s org pname handler).pathRoutes p
      = alookup s.pathRoutes p := by
  have hd : ∀ t : List Char,
      (t ++ potKey org pname) ∈ prefixesOf (potKey org pname) →
      p ≠ t ++ potKey org pname :=
    fun t ht h => hne (prefixesOf_inj hp (h ▸ ht))
  unfold registerThreeRoutesInternal
  rw [alookup_ainsert_ne _ _ _ (hd adminTag (by simp [prefixesOf])),
    alookup_ainsert_ne _ _ _ (hd webTag (by simp [prefixesOf])),
    alookup_ainsert_ne _ _ _ (hd apiTag (by simp [prefixesOf])),
    alookup_ainsert_ne _ _ _ (hd potTag (by simp [prefixesOf]))]

/-- The router invariant: every sandbox key is either fully registered
(its `sandboxRoutes` entry records exactly the four tagged prefixes and all
four are in `pathRoutes`) or fully absent. -/
def RouterInv (s : RouterState) : Prop :=
  ∀ key : List Char,
    (alookup s.sandboxRoutes key = some (routeKeys key) ∧
      ∀ p ∈ prefixesOf key, alookup s.pathRoutes p ≠ none) ∨
    (alookup s.sandboxRoutes key = none ∧
      ∀ p ∈ prefixesOf key, alookup s.pathRoutes p = none)

theorem routerInv_init : RouterInv initRouter := by
  intro key
  right
  exact ⟨rfl, fun p _ => rfl⟩

theorem routerInv_remove {s : RouterState} (hinv : RouterInv s)
    (org pname : List Char) :
    RouterInv (removeRoutesInternal s org pname) := by
  rcases hinv (potKey org pname) with ⟨hsb, _⟩ | ⟨hsb, _⟩
  · rw [removeRoutesInternal_some hsb]
    intro key'
    by_cases hk : key' = potKey org pname
    · subst hk
      right
      exact ⟨alookup_aerase_self _ _, fun p hp => erase4_self hp⟩
    · rcases hinv key' with ⟨h1, h2⟩ | ⟨h1, h2⟩
      · left
        refine ⟨?_, fun p hp => ?_⟩
        · rw [alookup_aerase_ne _ _ hk]; exact h1
        · rw [erase4_other hk hp]; exact h2 p hp
      · right
        refine ⟨?_, fun p hp => ?_⟩
        · rw [alookup_aerase_ne _ _ hk]; exact h1
        · rw [erase4_other hk hp]; exact h2 p hp
  · rw [removeRoutesInternal_none hsb]
    exact hinv

theorem routerInv_register {s : RouterState} (hinv : RouterInv s)
    (org pname : List Char) (handler : RHandler) :
    RouterInv (registerThreeRoutesInternal
      (removeRoutesInternal s org pname) org pname handler) := by
  have hrm := routerInv_remove hinv org pname
  intro key'
  by_cases hk : key' = potKey org pname
  · subst hk
    left
    refine ⟨?_, fun p hp => insert4_self handler hp⟩
    show alookup (ainsert _ _ _) _ = _
    exact alookup_ainsert_self _ _ _
  · rcases hrm key' with ⟨h1, h2⟩ | ⟨h1, h2⟩
    · left
      refine ⟨?_, fun p hp => ?_⟩
      · show alookup (ainsert _ _ _) _ = _
        rw [alookup_ainsert_ne _ _ _ hk]; exact h1
      · rw [insert4_other handler hk hp]; exact h2 p hp
    · right
      refine ⟨?_, fun p hp => ?_⟩
      · show alookup (ainsert _ _ _) _ = _
        rw [alookup_ainsert_ne _ _ _ hk]; exact h1
      · rw [insert4_other handler hk hp]; exact h2 p hp

theorem routerInv_applyOp {s : RouterState} (hinv : RouterInv s)
    (op : RouterOp) : RouterInv (applyOp s op) := by
  cases op with
  | regStatic org pname potCfg => exact routerInv_register hinv org pname _
  | regExe org pname readRun =>
    cases readRun with
    | notFound => exact routerInv_remove hinv org pname
    | parseError => exact routerInv_remove hinv org pname
    | ok rc =>
      show RouterInv (RegisterExe s org pname (.ok rc)).2
      simp only [RegisterExe]
      split
      · exact routerInv_remove hinv org pname
      · exact routerInv_register hinv org pname _
  | removeR org pname => exact routerInv_remove hinv org pname

theorem routerInv_applyOps (ops : List RouterOp) :
    RouterInv (applyOps ops) := by
  suffices h : ∀ (s : RouterState), RouterInv s →
      RouterInv (List.foldl applyOp s ops) from h initRouter routerInv_init
  induction ops with
  | nil => intro s hs; exact hs
  | cons op rest ih =>
    intro s hs
    exact ih _ (routerInv_applyOp hs op)

/-! ## Claim C4: all-or-none route registration -/

/-- C4: after any sequence of register/remove operations, the four
prefixes `/pot|api|web|admin/org/name` of a pot are either all present in
the path table or all absent — never a proper non-empty subset; moreover
`RegisterStatic` (and successful `RegisterExe`) is literally
remove-existing-then-install-four. -/
theorem router_all_or_none (ops : List RouterOp) (org pname : List Char) :
    ((∀ p ∈ prefixesOf (potKey org pname),
        alookup (applyOps ops).pathRoutes p ≠ none) ∨
      (∀ p ∈ prefixesOf (potKey org pname),
        alookup (applyOps ops).pathRoutes p = none)) ∧
    (∀ (s : RouterState) (potCfg : PotConfig),
      RegisterStatic s org pname potCfg =
        registerThreeRoutesInternal (removeRoutesInternal s org pname)
          org pname (.staticH org pname potCfg.root)) ∧
    (∀ (s : RouterState) (rc : RunConfig), rc.port ≠ 0 →
      RegisterExe s org pname (.ok rc) =
        (.ok (), registerThreeRoutesInternal (removeRoutesInternal s org pname)
          org pname (.proxyH rc.port))) := by
  refine ⟨?_, fun s potCfg => rfl, fun s rc hport => ?_⟩
  · rcases routerInv_applyOps ops (potKey org pname) with ⟨_, h⟩ | ⟨_, h⟩
    · exact Or.inl h
    · exact Or.inr h
  · unfold RegisterExe
    simp only [if_neg hport]

/-- Witness for C4 at a concrete input: one static registration followed
by a removal of a different pot. -/
theorem router_all_or_none_witness :
    ((∀ p ∈ prefixesOf (potKey "a".data "b".data),
        alookup (applyOps [.regStatic "a".data "b".data ⟨"static".data, [] ⟩,
          .removeR "a".data "c".data]).pathRoutes p ≠ none) ∨
      (∀ p ∈ prefixesOf (potKey "a".data "b".data),
        alookup (applyOps [.regStatic "a".data "b".data ⟨"static".data, [] ⟩,
          .removeR "a".data "c".data]).pathRoutes p = none)) ∧
    (∀ (s : RouterState) (potCfg : PotConfig),
      RegisterStatic s "a".data "b".data potCfg =
        registerThreeRoutesInternal
          (removeRoutesInternal s "a".data "b".data) "a".data "b".data
          (.staticH "a".data "b".data potCfg.root)) ∧
    (∀ (s : RouterState) (rc : RunConfig), rc.port ≠ 0 →
      RegisterExe s "a".data "b".data (.ok rc) =
        (.ok (), registerThreeRoutesInternal
          (removeRoutesInternal s "a".data "b".data) "a".data "b".data
          (.proxyH rc.port))) :=
  router_all_or_none
    [.regStatic "a".data "b".data ⟨"static".data, [] ⟩,
      .removeR "a".data "c".data] "a".data "b".data

/-! ## Claim C3: longest-prefix dispatch

The fold in `ServeHTTP` starts from the empty best match, so it returns the
entry with the longest prefix of the request path.  Reachable route tables
have duplicate-free, non-empty keys (they are Go map keys of the form
`/tag/org/name`), which the following well-formedness predicate captures
and `applyOps` preserves. -/

/-- Well-formedness of the path table: duplicate-free, non-empty keys. -/
def WFRoutes (l : List (List Char × RHandler)) : Prop :=
  (l.map Prod.fst).Nodup ∧ ∀ p ∈ l.map Prod.fst, p ≠ []

theorem mem_keys_ainsert {α : Type} {l : List (List Char × α)}
    {k x : List Char} {v : α}
    (h : x ∈ (ainsert l k v).map Prod.fst) :
    x ∈ l.map Prod.fst ∨ x = k := by
  induction l with
  | nil => simpa [ainsert] using h
  | cons e rest ih =>
    by_cases he : e.1 = k
    · simp only [ainsert, if_pos he, List.map_cons, List.mem_cons] at h
      rcases h with rfl | h
      · exact Or.inr rfl
      · exact Or.inl (by rw [List.map_cons]; exact List.mem_cons_of_mem _ h)
    · simp only [ainsert, if_neg he, List.map_cons, List.mem_cons] at h
      rcases h with rfl | h
      · exact Or.inl (by rw [List.map_cons]; exact List.mem_cons_self _ _)
      · rcases ih h with h' | h'
        · exact Or.inl (by rw [List.map_cons]; exact List.mem_cons_of_mem _ h')
        · exact Or.inr h'

theorem nodup_keys_ainsert {α : Type} {l : List (List Char × α)}
    {k : List Char} {v : α} (h : (l.map Prod.fst).Nodup) :
    ((ainsert l k v).map Prod.fst).Nodup := by
  induction l with
  | nil => simp [ainsert]
  | cons e rest ih =>
    simp only [List.map_cons, List.nodup_cons] at h
    by_cases he : e.1 = k
    · simp only [ainsert, if_pos he, List.map_cons, List.nodup_cons]
      exact ⟨he ▸ h.1, h.2⟩
    · simp only [ainsert, if_neg he, List.map_cons, List.nodup_cons]
      refine ⟨fun hc => ?_, ih h.2⟩
      rcases mem_keys_ainsert hc with h' | h'
      · exact h.1 h'
      · exact he h'

theorem wfroutes_ainsert {l : List (List Char × RHandler)}
    {k : List Char} {v : RHandler} (h : WFRoutes l) (hk : k ≠ []) :
    WFRoutes (ainsert l k v) := by
  refine ⟨nodup_keys_ainsert h.1, fun p hp => ?_⟩
  rcases mem_keys_ainsert hp with h' | h'
  · exact h.2 p h'
  · exact h' ▸ hk

theorem wfroutes_aerase {l : List (List Char × RHandler)} {k : List Char}
    (h : WFRoutes l) : WFRoutes (aerase l k) := by
  have hsub : List.Sublist ((aerase l k).map Prod.fst) (l.map Prod.fst) :=
    (List.filter_sublist l).map Prod.fst
  exact ⟨h.1.sublist hsub, fun p hp => h.2 p (hsub.mem hp)⟩

theorem wfroutes_remove {s : RouterState} (h : WFRoutes s.pathRoutes)
    (org pname : List Char) :
    WFRoutes (removeRoutesInternal s org pname).pathRoutes := by
  unfold removeRoutesInternal
  cases alookup s.sandboxRoutes (potKey org pname) with
  | none => exact h
  | some keys =>
    show WFRoutes (List.foldl _ s.pathRoutes _)
    generalize keys.filter (fun k => hasPre pathTag k) = ks
    induction ks generalizing s with
    | nil => exact h
    | cons k rest ih =>
      simp only [List.foldl_cons]
      exact ih (s := ⟨aerase s.pathRoutes (trimPre pathTag k),
        s.sandboxRoutes⟩) (wfroutes_aerase h)

theorem tag_key_ne_nil (t : List Char) (key : List Char)
    (ht : t ≠ []) : t ++ key ≠ [] := by
  cases t with
  | nil => exact absurd rfl ht
  | cons c cs => simp

theorem wfroutes_register {s : RouterState} (h : WFRoutes s.pathRoutes)
    (org pname : List Char) (handler : RHandler) :
    WFRoutes (registerThreeRoutesInternal s org pname handler).pathRoutes := by
  unfold registerThreeRoutesInternal
  refine wfroutes_ainsert (wfroutes_ainsert (wfroutes_ainsert
    (wfroutes_ainsert h ?_) ?_) ?_) ?_
  · exact tag_key_ne_nil _ _ (by simp [potTag])
  · exact tag_key_ne_nil _ _ (by simp [apiTag])
  · exact tag_key_ne_nil _ _ (by simp [webTag])
  · exact tag_key_ne_nil _ _ (by simp [adminTag])

theorem wfroutes_applyOp {s : RouterState} (h : WFRoutes s.pathRoutes)
    (op : RouterOp) : WFRoutes (applyOp s op).pathRoutes := by
  cases op with
  | regStatic org pname potCfg =>
    exact wfroutes_register (wfroutes_remove h org pname) org pname _
  | regExe org pname readRun =>
    cases readRun with
    | notFound => exact wfroutes_remove h org pname
    | parseError => exact wfroutes_remove h org pname
    | ok rc =>
      show WFRoutes (RegisterExe s org pname (.ok rc)).2.pathRoutes
      simp only [RegisterExe]
      split
      · exact wfroutes_remove h org pname
      · exact wfroutes_register (wfroutes_remove h org pname) org pname _
  | removeR org pname => exact wfroutes_remove h org pname

theorem wfroutes_applyOps (ops : List RouterOp) :
    WFRoutes (applyOps ops).pathRoutes := by
  suffices h : ∀ (s : RouterState), WFRoutes s.pathRoutes →
      WFRoutes (List.foldl applyOp s ops).pathRoutes from
    h initRouter ⟨List.nodup_nil, fun p hp => absurd hp (List.not_mem_nil p)⟩
  induction ops with
  | nil => intro s hs; exact hs
  | cons op rest ih => intro s hs; exact ih _ (wfroutes_applyOp hs op)

theorem hasPre_trans {q p path : List Char} (hq : hasPre q path = true)
    (hp : hasPre p path = true) (hlen : q.length ≤ p.length) :
    hasPre q p = true := by
  rcases (hasPre_iff q path).mp hq with ⟨tq, rfl⟩
  rcases (hasPre_iff p (q ++ tq)).mp hp with ⟨tp, he⟩
  rw [hasPre_iff]
  have hqp : q <+: p := by
    refine List.prefix_of_prefix_length_le ⟨tq, rfl⟩ ⟨tp, he.symm⟩ hlen
  exact ⟨hqp.choose, hqp.choose_spec.symm⟩

theorem hasPre_eq_of_length {q p path : List Char}
    (hq : hasPre q path = true) (hp : hasPre p path = true)
    (hlen : q.length = p.length) : q = p := by
  have h1 : hasPre q p = true := hasPre_trans hq hp (le_of_eq hlen)
  rcases (hasPre_iff q p).mp h1 with ⟨t, rfl⟩
  have : t = [] := by
    have := hlen
    simp only [List.length_append] at this
    have ht : t.length = 0 := by omega
    exact List.length_eq_zero.mp ht
  simp [this]

/-- One step of the `ServeHTTP` scan. -/
def serveStep (path : List Char) (best : List Char × Option RHandler)
    (e : List Char × RHandler) : List Char × Option RHandler :=
  if hasPre e.1 path && decide (best.1.length < e.1.length) then
    (e.1, some e.2)
  else best

theorem serveHTTP_eq_fold (s : RouterState) (path : List Char) :
    serveHTTP s path =
      (s.pathRoutes.foldl (serveStep path) ([], none)).2 := rfl

theorem serve_fold_stay (path : List Char) :
    ∀ (l : List (List Char × RHandler)) (best : List Char × Option RHandler),
      (∀ e ∈ l, hasPre e.1 path = true → e.1.length ≤ best.1.length) →
      l.foldl (serveStep path) best = best := by
  intro l
  induction l with
  | nil => intro best _; rfl
  | cons e rest ih =>
    intro best hall
    have hstep : serveStep path best e = best := by
      unfold serveStep
      by_cases hm : hasPre e.1 path = true
      · have := hall e (List.mem_cons_self _ _) hm
        rw [hm]
        simp only [Bool.true_and, decide_eq_true_eq]
        rw [if_neg (by omega)]
      · rw [Bool.not_eq_true] at hm
        rw [hm]
        simp
    simp only [List.foldl_cons, hstep]
    exact ih best fun e' he' => hall e' (List.mem_cons_of_mem _ he')

theorem serve_fold_best (path p : List Char) (h : RHandler) :
    ∀ (l : List (List Char × RHandler)) (best : List Char × Option RHandler),
      (p, h) ∈ l → hasPre p path = true → best.1.length < p.length →
      (∀ e ∈ l, hasPre e.1 path = true → e.1.length ≤ p.length) →
      (l.map Prod.fst).Nodup →
      l.foldl (serveStep path) best = (p, some h) := by
  intro l
  induction l with
  | nil => intro best hmem; cases hmem
  | cons e rest ih =>
    intro best hmem hp hlt hall hnd
    simp only [List.map_cons, List.nodup_cons] at hnd
    rcases List.mem_cons.mp hmem with rfl | hmem'
    · have hstep : serveStep path best (p, h) = (p, some h) := by
        unfold serveStep
        rw [hp]
        simp only [Bool.true_and, decide_eq_true_eq]
        rw [if_pos hlt]
      simp only [List.foldl_cons, hstep]
      exact serve_fold_stay path rest (p, some h)
        fun e' he' hm => hall e' (List.mem_cons_of_mem _ he') hm
    · have hep : e.1 ≠ p := by
        intro hc
        exact hnd.1 (hc ▸ List.mem_map_of_mem Prod.fst hmem')
      have hnext : (serveStep path best e).1.length < p.length := by
        unfold serveStep
        split
        · rename_i hcond
          simp only [Bool.and_eq_true, decide_eq_true_eq] at hcond
          have hle := hall e (List.mem_cons_self _ _) hcond.1
          rcases lt_or_eq_of_le hle with hlt' | heq
          · exact hlt'
          · exact absurd (hasPre_eq_of_length hcond.1 hp heq) hep
        · exact hlt
      simp only [List.foldl_cons]
      exact ih (serveStep path best e) hmem' hp hnext
        (fun e' he' hm => hall e' (List.mem_cons_of_mem _ he') hm) hnd.2

/-- C3: for every request path, `ServeHTTP` over a reachable route table
dispatches to the handler of the longest registered prefix of the path,
and responds 404 (`none`) when no registered prefix matches. -/
theorem serveHTTP_longest (ops : List RouterOp) (path p : List Char)
    (h : RHandler) :
    ((p, h) ∈ (applyOps ops).pathRoutes → hasPre p path = true →
      (∀ e ∈ (applyOps ops).pathRoutes, hasPre e.1 path = true →
        e.1.length ≤ p.length) →
      serveHTTP (applyOps ops) path = some h) ∧
    ((∀ e ∈ (applyOps ops).pathRoutes, hasPre e.1 path = false) →
      serveHTTP (applyOps ops) path = none) := by
  have hwf := wfroutes_applyOps ops
  constructor
  · intro hmem hp hall
    have hpn : p ≠ [] := hwf.2 p (List.mem_map_of_mem Prod.fst hmem)
    have hlen : (0 : Nat) < p.length := List.length_pos.mpr hpn
    rw [serveHTTP_eq_fold,
      serve_fold_best path p h (applyOps ops).pathRoutes ([], none)
        hmem hp hlen hall hwf.1]
  · intro hnone
    rw [serveHTTP_eq_fold,
      serve_fold_stay path (applyOps ops).pathRoutes ([], none)
        (fun e he hm => absurd (hnone e he) (by rw [hm]; simp))]

/-- Witness for C3 at a concrete input (the claim's own example): with
`/web/a/b` and `/web/a/bb` both registered, `/web/a/b/x` is handled by
pot `b`'s handler and `/web/a/bb/x` by pot `bb`'s handler. -/
theorem serveHTTP_longest_witness :
    serveHTTP (applyOps [.regStatic "a".data "b".data ⟨"static".data, [] ⟩,
        .regStatic "a".data "bb".data ⟨"static".data, [] ⟩]) "/web/a/b/x".data
      = some (.stripOrgName "a".data "b".data
          (.staticH "a".data "b".data [])) ∧
    serveHTTP (applyOps [.regStatic "a".data "b".data ⟨"static".data, [] ⟩,
        .regStatic "a".data "bb".data ⟨"static".data, [] ⟩]) "/web/a/bb/x".data
      = some (.stripOrgName "a".data "bb".data
          (.staticH "a".data "bb".data [])) :=
  ⟨(serveHTTP_longest [.regStatic "a".data "b".data ⟨"static".data, [] ⟩,
      .regStatic "a".data "bb".data ⟨"static".data, [] ⟩] "/web/a/b/x".data
      "/web/a/b".data _).1 (by decide) (by decide) (by decide),
    (serveHTTP_longest [.regStatic "a".data "b".data ⟨"static".data, [] ⟩,
      .regStatic "a".data "bb".data ⟨"static".data, [] ⟩] "/web/a/bb/x".data
      "/web/a/bb".data _).1 (by decide) (by decide) (by decide)⟩

/-! ## Claim C10: failed `RegisterExe` deregisters the pot -/

theorem removeRoutes_clears (ops : List RouterOp) (org pname : List Char) :
    (∀ p ∈ prefixesOf (potKey org pname),
      alookup (removeRoutesInternal (applyOps ops) org pname).pathRoutes p
        = none) ∧
    alookup (removeRoutesInternal (applyOps ops) org pname).sandboxRoutes
      (potKey org pname) = none ∧
    (∀ q, q ∉ prefixesOf (potKey org pname) →
      alookup (removeRoutesInternal (applyOps ops) org pname).pathRoutes q
        = alookup (applyOps ops).pathRoutes q) := by
  rcases routerInv_applyOps ops (potKey org pname) with ⟨hsb, _⟩ | ⟨hsb, hall⟩
  · rw [removeRoutesInternal_some hsb]
    refine ⟨fun p hp => erase4_self hp, alookup_aerase_self _ _, fun q hq => ?_⟩
    show alookup (erase4 _ _) q = _
    have hd : ∀ t : List Char, (t ++ potKey org pname) ∈
        prefixesOf (potKey org pname) → q ≠ t ++ potKey org pname :=
      fun t ht h => hq (h ▸ ht)
    unfold erase4
    rw [alookup_aerase_ne _ _ (hd adminTag (by simp [prefixesOf])),
      alookup_aerase_ne _ _ (hd webTag (by simp [prefixesOf])),
      alookup_aerase_ne _ _ (hd apiTag (by simp [prefixesOf])),
      alookup_aerase_ne _ _ (hd potTag (by simp [prefixesOf]))]
  · rw [removeRoutesInternal_none hsb]
    exact ⟨hall, hsb, fun q _ => rfl⟩

/-- C10: `RegisterExe` removes the pot's routes before reading `run.yml`,
so on a missing/unparseable `run.yml` or a zero `runtime.port` it returns
an error with the pot's four prefixes absent from the path table (any
previously registered ones removed), the sandbox entry gone, and no other
route touched. -/
theorem registerExe_failure_deregisters (ops : List RouterOp)
    (org pname : List Char) (readRun : RunRead)
    (hfail : readRun = .notFound ∨ readRun = .parseError ∨
      ∃ rc, readRun = .ok rc ∧ rc.port = 0) :
    (∃ e, (RegisterExe (applyOps ops) org pname readRun).1 = .error e) ∧
    (∀ p ∈ prefixesOf (potKey org pname),
      alookup (RegisterExe (applyOps ops) org pname readRun).2.pathRoutes p
        = none) ∧
    alookup (RegisterExe (applyOps ops) org pname readRun).2.sandboxRoutes
      (potKey org pname) = none ∧
    (∀ q, q ∉ prefixesOf (potKey org pname) →
      alookup (RegisterExe (applyOps ops) org pname readRun).2.pathRoutes q
        = alookup (applyOps ops).pathRoutes q) := by
  have hclr := removeRoutes_clears ops org pname
  have hstate : (RegisterExe (applyOps ops) org pname readRun).2 =
      removeRoutesInternal (applyOps ops) org pname ∧
      ∃ e, (RegisterExe (applyOps ops) org pname readRun).1 = .error e := by
    rcases hfail with rfl | rfl | ⟨rc, rfl, hport⟩
    · exact ⟨rfl, .runYmlNotFound, rfl⟩
    · exact ⟨rfl, .yamlError, rfl⟩
    · constructor
      · show (RegisterExe (applyOps ops) org pname (.ok rc)).2 = _
        simp only [RegisterExe]
        split
        · rfl
        · rename_i hne; exact absurd hport hne
      · refine ⟨.noPort, ?_⟩
        show (RegisterExe (applyOps ops) org pname (.ok rc)).1 = _
        simp only [RegisterExe]
        split
        · rfl
        · rename_i hne; exact absurd hport hne
  rw [hstate.1]
  exact ⟨hstate.2, hclr.1, hclr.2.1, hclr.2.2⟩

/-- Witness for C10 at a concrete input: a pot with previously registered
static routes loses all four of them when an exe refresh fails on a zero
port, and an unrelated pot's route is untouched. -/
theorem registerExe_failure_deregisters_witness :
    (∃ e, (RegisterExe (applyOps [.regStatic "a".data "b".data
        ⟨"static".data, [] ⟩]) "a".data "b".data (.ok ⟨"running".data, 0⟩)).1
        = .error e) ∧
    (∀ p ∈ prefixesOf (potKey "a".data "b".data),
      alookup (RegisterExe (applyOps [.regStatic "a".data "b".data
        ⟨"static".data, [] ⟩]) "a".data "b".data
        (.ok ⟨"running".data, 0⟩)).2.pathRoutes p = none) ∧
    alookup (RegisterExe (applyOps [.regStatic "a".data "b".data
        ⟨"static".data, [] ⟩]) "a".data "b".data
        (.ok ⟨"running".data, 0⟩)).2.sandboxRoutes
      (potKey "a".data "b".data) = none ∧
    (∀ q, q ∉ prefixesOf (potKey "a".data "b".data) →
      alookup (RegisterExe (applyOps [.regStatic "a".data "b".data
        ⟨"static".data, [] ⟩]) "a".data "b".data
        (.ok ⟨"running".data, 0⟩)).2.pathRoutes q =
        alookup (applyOps [.regStatic "a".data "b".data
          ⟨"static".data, [] ⟩]).pathRoutes q) :=
  registerExe_failure_deregisters
    [.regStatic "a".data "b".data ⟨"static".data, [] ⟩]
    "a".data "b".data (.ok ⟨"running".data, 0⟩)
    (Or.inr (Or.inr ⟨⟨"running".data, 0⟩, rfl, rfl⟩))

/-! ## Claim C5: the refresh endpoint (`internal/router/refresh.go`) -/

/-- The JSON body of `POST /pot/potstack/router/refresh` after a successful
bind (`ShouldBindJSON` with both fields required). -/
structure RefreshReq where
  org : List Char
  pname : List Char
deriving DecidableEq

/-- Response bodies produced by `RefreshHandler` (`gin.H` values). -/
inductive RespBody where
  | errBody (msg : List Char)
  | okBody (status org pname : List Char)
deriving DecidableEq

/-- Messages of the `RegisterExe` errors surfaced in the 500 body. -/
def regErrMsg : RegErr → List Char
  | .runYmlNotFound => "run.yml not found".data
  | .yamlError => "yaml: unmarshal error".data
  | .noPort => "no port assigned".data

/-- `RefreshHandler` (refresh.go): bind the JSON body (`none` = bind
failure → 400), read `pot.yml` from the pot's repository HEAD (`none` =
read failure → 404), then register by type: `static` always succeeds
(`RegisterStatic` returns nil in the code, so its 500 branch is dead);
`exe` can fail → 500; any other type → 400.  Returns status, body and the
router state after the call. -/
def RefreshHandler (s : RouterState) (bind : Option RefreshReq)
    (readPot : Option PotConfig) (readRun : RunRead) :
    Nat × RespBody × RouterState :=
  match bind with
  | none => (400, .errBody "invalid request".data, s)
  | some req =>
    match readPot with
    | none => (404, .errBody "pot.yml not found".data, s)
    | some potCfg =>
      if potCfg.ptype = "static".data then
        (200, .okBody "ok".data req.org req.pname,
          RegisterStatic s req.org req.pname potCfg)
      else if potCfg.ptype = "exe".data then
        match RegisterExe s req.org req.pname readRun with
        | (.error e, s') => (500, .errBody (regErrMsg e), s')
        | (.ok (), s') => (200, .okBody "ok".data req.org req.pname, s')
      else
        (400, .errBody "unsupported pot type".data, s)

/-- Counterexample to C5 as stated: a well-bound body whose `pot.yml` is
readable but has a pot type that is neither `static` nor `exe` gets 400,
where the claim's "otherwise 200" case requires 200. -/
theorem refreshHandler_counterexample :
    (RefreshHandler initRouter (some ⟨"o".data, "n".data⟩)
        (some ⟨"foo".data, [] ⟩) .notFound).1 = 400 ∧
    (400 : Nat) ≠ 200 := by
  exact ⟨rfl, by decide⟩

/-- C5 (amended): the refresh endpoint responds 400 when the body cannot
be bound, 404 when `pot.yml` cannot be read, 500 when an `exe`
registration fails, 400 also when the pot type is neither `static` nor
`exe`, and otherwise 200 with a body carrying status, org and name. -/
theorem refreshHandler_spec (s : RouterState) (bind : Option RefreshReq)
    (readPot : Option PotConfig) (readRun : RunRead) :
    (bind = none → (RefreshHandler s bind readPot readRun).1 = 400) ∧
    (∀ req, bind = some req → readPot = none →
      (RefreshHandler s bind readPot readRun).1 = 404) ∧
    (∀ req potCfg, bind = some req → readPot = some potCfg →
      potCfg.ptype = "static".data →
      (RefreshHandler s bind readPot readRun).1 = 200 ∧
      (RefreshHandler s bind readPot readRun).2.1
        = .okBody "ok".data req.org req.pname) ∧
    (∀ req potCfg, bind = some req → readPot = some potCfg →
      potCfg.ptype = "exe".data →
      (∀ e s', RegisterExe s req.org req.pname readRun = (.error e, s') →
        (RefreshHandler s bind readPot readRun).1 = 500) ∧
      (∀ s', RegisterExe s req.org req.pname readRun = (.ok (), s') →
        (RefreshHandler s bind readPot readRun).1 = 200 ∧
        (RefreshHandler s bind readPot readRun).2.1
          = .okBody "ok".data req.org req.pname)) ∧
    (∀ req potCfg, bind = some req → readPot = some potCfg →
      potCfg.ptype ≠ "static".data → potCfg.ptype ≠ "exe".data →
      (RefreshHandler s bind readPot readRun).1 = 400) := by
  refine ⟨?_, ?_, ?_, ?_, ?_⟩
  · rintro rfl; rfl
  · rintro req rfl rfl; rfl
  · rintro req potCfg rfl rfl hty
    simp only [RefreshHandler, if_pos hty]
    exact ⟨trivial, trivial⟩
  · rintro req potCfg rfl rfl hty
    have hne : potCfg.ptype ≠ "static".data := by
      rw [hty]; decide
    constructor
    · intro e s' hreg
      simp only [RefreshHandler, if_neg hne, if_pos hty, hreg]
    · intro s' hreg
      simp only [RefreshHandler, if_neg hne, if_pos hty, hreg]
      exact ⟨trivial, trivial⟩
  · rintro req potCfg rfl rfl h1 h2
    simp only [RefreshHandler, if_neg h1, if_neg h2]

/-- Witness for C5 (amended) at a concrete input: a static pot refresh
returns 200 with the ok body. -/
theorem refreshHandler_spec_witness :
    (RefreshHandler initRouter (some ⟨"o".data, "n".data⟩)
        (some ⟨"static".data, [] ⟩) .notFound).1 = 200 ∧
    (RefreshHandler initRouter (some ⟨"o".data, "n".data⟩)
        (some ⟨"static".data, [] ⟩) .notFound).2.1
      = .okBody "ok".data "o".data "n".data :=
  (refreshHandler_spec initRouter (some ⟨"o".data, "n".data⟩)
      (some ⟨"static".data, [] ⟩) .notFound).2.2.1
    ⟨"o".data, "n".data⟩ ⟨"static".data, [] ⟩ rfl rfl rfl

/-! ## Keeper (`internal/keeper/service.go`) -/

/-- The `target_status` constants (`models.RunStatusRunning/Stopped`). -/
def runStatusRunning : List Char := "running".data
def runStatusStopped : List Char := "stopped".data

/-- Events observed by `StartKeeper`'s select loop. -/
inductive KEvent where
  | tick
  | stopped
deriving DecidableEq

/-- Actions a `StartKeeper` run performs, in order. -/
inductive KAction where
  | reconcile
  | monitor
deriving DecidableEq

/-- The `time.NewTicker` period of the keeper loop, in seconds. -/
def keeperTickSeconds : Nat := 5

/-- The select loop of `StartKeeper`: each ticker tick runs `monitor`;
a value on `stopChan` ends the loop. -/
def keeperLoop : List KEvent → List KAction
  | [] => []
  | .tick :: rest => .monitor :: keeperLoop rest
  | .stopped :: _ => []

/-- `StartKeeper`: one initial `reconcile`, then the select loop over the
observed events. -/
def startKeeperRun (events : List KEvent) : List KAction :=
  .reconcile :: keeperLoop events

/-- The body of `monitor`: it only iterates `runningInstances` and
performs no state change (the loop body is empty — process exits are
handled by `watchProcess`). -/
def monitorStep {α : Type} (runningInstances : List α) : List α :=
  runningInstances

/-- Counterexample to C6 as stated: the action performed on a 5-second
tick is `monitor`, not `reconcile` — a single tick yields
`[reconcile, monitor]`, not a second reconcile pass. -/
theorem startKeeper_counterexample :
    startKeeperRun [.tick] = [.reconcile, .monitor] ∧
    KAction.monitor ≠ KAction.reconcile := by decide

theorem keeperLoop_eq (events : List KEvent) :
    keeperLoop events = List.replicate
      (events.takeWhile (fun e => e = KEvent.tick)).length KAction.monitor := by
  induction events with
  | nil => rfl
  | cons e rest ih =>
    cases e with
    | tick =>
      show KAction.monitor :: keeperLoop rest = _
      rw [ih]
      simp [List.takeWhile_cons, List.replicate_succ]
    | stopped =>
      show ([] : List KAction) = _
      simp [List.takeWhile_cons]

/-- C6 (amended): the keeper performs one reconcile pass at startup, and
then every 5-second tick runs only `monitor` — which scans the running map
and changes nothing, performing no reconciliation — until the stop channel
yields; the reconciliation algorithm is not re-run on ticks. -/
theorem startKeeper_spec (events : List KEvent) :
    startKeeperRun events =
      .reconcile :: List.replicate
        (events.takeWhile (fun e => e = KEvent.tick)).length KAction.monitor ∧
    keeperTickSeconds = 5 ∧
    (∀ (α : Type) (m : List α), monitorStep m = m) := by
  refine ⟨?_, rfl, fun α m => rfl⟩
  show KAction.reconcile :: keeperLoop events = _
  rw [keeperLoop_eq]

/-- Witness for C6 (amended) at a concrete input: two ticks then stop. -/
theorem startKeeper_spec_witness :
    startKeeperRun [.tick, .tick, .stopped] =
      .reconcile :: List.replicate
        (([KEvent.tick, .tick, .stopped].takeWhile
          (fun e => e = .tick)).length) KAction.monitor ∧
    keeperTickSeconds = 5 ∧
    (∀ (α : Type) (m : List α), monitorStep m = m) :=
  startKeeper_spec [.tick, .tick, .stopped]

/-! ## Claim C7: `watchProcess` restart decision -/

/-- Decision taken by the per-child waiter after the process exit is
observed and the instance is removed from the running map. -/
inductive WatchAction where
  | restart (backoffSeconds : Nat) (org pname : List Char)
  | quiesce
deriving DecidableEq

/-- `watchProcess` (service.go): split the `org/name` key, reload
`run.yml` (`loadRun org name = none` models a read or unmarshal failure),
and restart — `time.Sleep(1s)` then `Start` — only if the reloaded
`target_status` is still `running`. -/
def watchProcess (loadRun : List Char → List Char → Option RunConfig)
    (key : List Char) : WatchAction :=
  match splitSlash key with
  | org :: pname :: _ =>
    match loadRun org pname with
    | some rc =>
      if rc.targetStatus = runStatusRunning then .restart 1 org pname
      else .quiesce
    | none => .quiesce
  | _ => .quiesce

theorem splitSlash_no_slash {l : List Char} (h : '/' ∉ l) :
    splitSlash l = [l] := by
  induction l with
  | nil => rfl
  | cons c rest ih =>
    have hc : ¬ c = '/' := fun hc => h (hc ▸ List.mem_cons_self c rest)
    have hr : '/' ∉ rest := fun hr => h (List.mem_cons_of_mem c hr)
    simp only [splitSlash, ih hr]
    rw [if_neg hc]

theorem splitSlash_ne_nil (l : List Char) : splitSlash l ≠ [] := by
  cases l with
  | nil => simp [splitSlash]
  | cons c rest =>
    simp only [splitSlash]
    cases h : splitSlash rest with
    | nil => simp
    | cons g gs =>
      show (if c = '/' then [] :: g :: gs else (c :: g) :: gs) ≠ []
      by_cases hc : c = '/'
      · rw [if_pos hc]; simp
      · rw [if_neg hc]; simp

theorem splitSlash_append {org : List Char} (pname : List Char)
    (h : '/' ∉ org) :
    splitSlash (org ++ '/' :: pname) = org :: splitSlash pname := by
  induction org with
  | nil =>
    show splitSlash ('/' :: pname) = [] :: splitSlash pname
    simp only [splitSlash]
    cases hs : splitSlash pname with
    | nil => exact absurd hs (splitSlash_ne_nil pname)
    | cons g gs => simp
  | cons c rest ih =>
    have hc : ¬ c = '/' := fun hc => h (hc ▸ List.mem_cons_self c rest)
    have hr : '/' ∉ rest := fun hr => h (List.mem_cons_of_mem c hr)
    show splitSlash (c :: (rest ++ '/' :: pname)) = _
    simp only [splitSlash]
    rw [ih hr]
    show (if c = '/' then [] :: rest :: splitSlash pname
      else (c :: rest) :: splitSlash pname) = (c :: rest) :: splitSlash pname
    rw [if_neg hc]

/-- C7: for every exe pot whose `run.yml` records `target_status =
stopped` when its child exits, `watchProcess` never restarts it; a restart
(with a 1-second backoff) happens exactly when the reloaded `run.yml`
still records `target_status = running`. -/
theorem watchProcess_spec (loadRun : List Char → List Char → Option RunConfig)
    (org pname : List Char) (horg : '/' ∉ org) (hname : '/' ∉ pname) :
    (∀ rc, loadRun org pname = some rc →
      rc.targetStatus = runStatusStopped →
      watchProcess loadRun (org ++ '/' :: pname) = .quiesce) ∧
    (watchProcess loadRun (org ++ '/' :: pname) = .restart 1 org pname ↔
      ∃ rc, loadRun org pname = some rc ∧
        rc.targetStatus = runStatusRunning) := by
  have hsplit : splitSlash (org ++ '/' :: pname) = [org, pname] := by
    rw [splitSlash_append pname horg, splitSlash_no_slash hname]
  have heq : watchProcess loadRun (org ++ '/' :: pname) =
      (match loadRun org pname with
        | some rc =>
          if rc.targetStatus = runStatusRunning
          then WatchAction.restart 1 org pname else WatchAction.quiesce
        | none => WatchAction.quiesce) := by
    unfold watchProcess
    rw [hsplit]
  constructor
  · intro rc hload hstop
    rw [heq, hload]
    show (if rc.targetStatus = runStatusRunning
      then WatchAction.restart 1 org pname else WatchAction.quiesce)
      = WatchAction.quiesce
    rw [if_neg (by rw [hstop]; decide)]
  · rw [heq]
    constructor
    · intro h
      cases hload : loadRun org pname with
      | none =>
        rw [hload] at h
        exact WatchAction.noConfusion h
      | some rc =>
        rw [hload] at h
        have h' : (if rc.targetStatus = runStatusRunning
            then WatchAction.restart 1 org pname else WatchAction.quiesce)
            = WatchAction.restart 1 org pname := h
        by_cases hrun : rc.targetStatus = runStatusRunning
        · exact ⟨rc, rfl, hrun⟩
        · rw [if_neg hrun] at h'
          exact WatchAction.noConfusion h'
    · rintro ⟨rc, hload, hrun⟩
      rw [hload]
      show (if rc.targetStatus = runStatusRunning
        then WatchAction.restart 1 org pname else WatchAction.quiesce)
        = WatchAction.restart 1 org pname
      rw [if_pos hrun]

/-- Witness for C7 at a concrete input: a pot whose reloaded `run.yml`
says `stopped` is not restarted. -/
theorem watchProcess_spec_witness :
    watchProcess (fun _ _ => some ⟨"stopped".data, 7⟩)
      ("a".data ++ '/' :: "b".data) = .quiesce :=
  (watchProcess_spec (fun _ _ => some ⟨"stopped".data, 7⟩)
      "a".data "b".data (by decide) (by decide)).1
    ⟨"stopped".data, 7⟩ rfl rfl

/-! ## Claim C9: `extractZip` path safety (`internal/loader/loader.go`)

`extractZip` joins each archive entry name onto the destination with
`filepath.Join` (which runs `filepath.Clean`) and rejects any entry whose
joined path does not start with `Clean(dest) + "/"`.  `cleanPath` below is
Go's `path/filepath.Clean` for `/`-separated paths (the platform the
archive names use). -/

/-- One element of `filepath.Clean`'s scan.  `rout` holds the output
elements in reverse.  Empty elements (doubled separators) and `.` are
skipped; `..` pops the previous element when one is poppable, is dropped
at the root, and is kept for relative paths that escape upward. -/
def cleanStep (rooted : Bool) (rout : List (List Char)) (seg : List Char) :
    List (List Char) :=
  if seg = [] ∨ seg = ['.'] then rout
  else if seg = ['.', '.'] then
    match rout with
    | [] => if rooted then [] else [['.', '.']]
    | l :: rest =>
      if rooted then rest
      else if l = ['.', '.'] then ['.', '.'] :: l :: rest
      else rest
  else seg :: rout

/-- Join path elements with `/`. -/
def joinSegs : List (List Char) → List Char
  | [] => []
  | [s] => s
  | s :: rest => s ++ '/' :: joinSegs rest

/-- Go `path/filepath.Clean` with `/` separators. -/
def cleanPath (p : List Char) : List Char :=
  if p = [] then ['.']
  else
    let rooted := match p with | '/' :: _ => true | _ => false
    let elems := ((splitSlash p).foldl (cleanStep rooted) []).reverse
    if rooted then '/' :: joinSegs elems
    else if elems = [] then ['.']
    else joinSegs elems

/-- Go `filepath.Join(a, b)`: skip leading empty elements, join with `/`,
and `Clean` the result. -/
def joinPath (a b : List Char) : List Char :=
  if a ≠ [] then cleanPath (a ++ '/' :: b)
  else if b ≠ [] then cleanPath b
  else []

/-- A zip archive entry as seen by `extractZip` (`f.Name` and
`f.FileInfo().IsDir()`; for a directory entry the accepted path is created
with `MkdirAll`, for a file entry the blob is written at it). -/
structure ZipEntry where
  name : List Char
  isDir : Bool
deriving DecidableEq

/-- The security check of `extractZip`:
`strings.HasPrefix(filepath.Join(dest, f.Name), filepath.Clean(dest)+"/")`. -/
def safeEntry (dest : List Char) (f : ZipEntry) : Bool :=
  hasPre (cleanPath dest ++ ['/']) (joinPath dest f.name)

/-- `extractZip` (loader.go): process entries in order; an entry failing
the containment check aborts with `illegal file path: <name>`, leaving
only the previously created paths on disk; an accepted entry's joined path
is created (directory) or written (file). Returns the created paths and
the error, if any. -/
def extractZip (dest : List Char) : List ZipEntry →
    List (List Char) × Option (List Char)
  | [] => ([], none)
  | f :: rest =>
    if safeEntry dest f then
      match extractZip dest rest with
      | (written, res) => (joinPath dest f.name :: written, res)
    else
      ([], some ("illegal file path: ".data ++ f.name))

theorem extractZip_cons_safe {dest : List Char} {f : ZipEntry}
    (rest : List ZipEntry) (hs : safeEntry dest f = true) :
    extractZip dest (f :: rest) =
      (joinPath dest f.name :: (extractZip dest rest).1,
        (extractZip dest rest).2) := by
  simp only [extractZip, if_pos hs]

theorem takeWhile_all_head_false {α : Type} (p : α → Bool) :
    ∀ (l1 : List α) (f : α) (l2 : List α),
      (∀ g ∈ l1, p g = true) → p f = false →
      (l1 ++ f :: l2).takeWhile p = l1 ∧
      (l1 ++ f :: l2).dropWhile p = f :: l2 := by
  intro l1
  induction l1 with
  | nil =>
    intro f l2 _ hf
    simp [List.takeWhile_cons, List.dropWhile_cons, hf]
  | cons g rest ih =>
    intro f l2 hall hf
    have hg : p g = true := hall g (List.mem_cons_self _ _)
    have := ih f l2 (fun g' hg' => hall g' (List.mem_cons_of_mem _ hg')) hf
    simp [List.takeWhile_cons, List.dropWhile_cons, hg, this.1, this.2]

/-- C9: every path `extractZip` creates lies within the extraction root
after canonicalisation (its joined path starts with `Clean(dest) + "/"`),
and the first entry whose joined path escapes the root aborts the
extraction with an `illegal file path` error, so that no later entry of
the archive is written. -/
theorem extractZip_safety (dest : List Char) (entries : List ZipEntry) :
    (∀ q ∈ (extractZip dest entries).1,
      hasPre (cleanPath dest ++ ['/']) q = true) ∧
    (∀ (l1 : List ZipEntry) (f : ZipEntry) (l2 : List ZipEntry),
      entries = l1 ++ f :: l2 →
      (∀ g ∈ l1, safeEntry dest g = true) →
      safeEntry dest f = false →
      (extractZip dest entries).2
        = some ("illegal file path: ".data ++ f.name) ∧
      (extractZip dest entries).1
        = l1.map (fun g => joinPath dest g.name)) := by
  constructor
  · induction entries with
    | nil => intro q hq; cases hq
    | cons f rest ih =>
      intro q hq
      by_cases hs : safeEntry dest f = true
      · rcases hrec : extractZip dest rest with ⟨written, res⟩
        simp only [extractZip, if_pos hs, hrec] at hq
        rcases List.mem_cons.mp hq with rfl | hq'
        · exact hs
        · exact ih q (by rw [hrec]; exact hq')
      · rw [Bool.not_eq_true] at hs
        simp only [extractZip, hs] at hq
        rw [if_neg (by simp)] at hq
        cases hq
  · intro l1 f l2 hsplit hall hf
    subst hsplit
    induction l1 with
    | nil =>
      simp only [List.nil_append, extractZip, hf]
      rw [if_neg (by simp)]
      exact ⟨rfl, rfl⟩
    | cons g rest ih =>
      have hg : safeEntry dest g = true := hall g (List.mem_cons_self _ _)
      have hrec := ih (fun g' hg' => hall g' (List.mem_cons_of_mem _ hg'))
      rw [List.cons_append, extractZip_cons_safe _ hg]
      exact ⟨hrec.1, by rw [List.map_cons]; show _ :: _ = _; rw [hrec.2]⟩

/-- Witness for C9 at a concrete input: extracting
`[a/b.txt, a/../../evil, c.txt]` into `/data` creates `/data/a/b.txt`,
aborts at the traversal entry with the `illegal file path` error, and
never writes `c.txt`. -/
theorem extractZip_safety_witness :
    (∀ q ∈ (extractZip "/data".data
        [⟨"a/b.txt".data, false⟩, ⟨"a/../../evil".data, false⟩,
          ⟨"c.txt".data, false⟩]).1,
      hasPre (cleanPath "/data".data ++ ['/']) q = true) ∧
    ((extractZip "/data".data
        [⟨"a/b.txt".data, false⟩, ⟨"a/../../evil".data, false⟩,
          ⟨"c.txt".data, false⟩]).2
      = some ("illegal file path: ".data ++ "a/../../evil".data) ∧
      (extractZip "/data".data
        [⟨"a/b.txt".data, false⟩, ⟨"a/../../evil".data, false⟩,
          ⟨"c.txt".data, false⟩]).1
        = [⟨"a/b.txt".data, false⟩].map
            (fun g : ZipEntry => joinPath "/data".data g.name)) :=
  ⟨(extractZip_safety "/data".data
      [⟨"a/b.txt".data, false⟩, ⟨"a/../../evil".data, false⟩,
        ⟨"c.txt".data, false⟩]).1,
    (extractZip_safety "/data".data
      [⟨"a/b.txt".data, false⟩, ⟨"a/../../evil".data, false⟩,
        ⟨"c.txt".data, false⟩]).2
      [⟨"a/b.txt".data, false⟩] ⟨"a/../../evil".data, false⟩
      [⟨"c.txt".data, false⟩] rfl (by decide) (by decide)⟩

/-! ## Claim C8: the static-pot handler (`internal/git/http_server.go`,
`resource` package)

The handler's git reads are passed in as explicit outcomes: `fs` maps a
repository path to the result of `git.PlainOpen`, a repository yields its
HEAD/commit/tree step results, and a tree maps a file path to the
`tree.File` outcome. -/

/-- Outcome of `git.PlainOpen`: the code distinguishes
`git.ErrRepositoryNotExists` from any other error. -/
inductive OpenErr where
  | notExists
  | other

/-- Outcome of `tree.File`: the code distinguishes
`object.ErrFileNotFound` from any other error. -/
inductive TreeErr where
  | fileNotFound
  | other

/-- A blob reachable in a tree: the `file.Reader()`+read outcome and the
`file.Size` used for the Content-Length header. -/
structure GFile where
  content : Except Unit (List Nat)
  size : Nat

/-- A commit object: its `commit.Tree()` outcome. -/
structure GCommit where
  tree : Except Unit (List Char → Except TreeErr GFile)

/-- An opened repository: `repo.Head()` and `repo.CommitObject`. -/
structure GRepo where
  head : Except Unit Nat
  commitObject : Nat → Except Unit GCommit

/-- The observable HTTP response of the handler (status, Content-Type and
Content-Length headers, and the streamed body; error responses carry no
modelled body). -/
structure HttpResp where
  status : Nat
  contentType : Option (List Char)
  contentLength : Option Nat
  body : List Nat
deriving DecidableEq

def notFoundResp : HttpResp := ⟨404, none, none, []⟩
def internalErrResp : HttpResp := ⟨500, none, none, []⟩
def octetStream : List Char := "application/octet-stream".data

/-- `filepath.Ext`: the suffix of the final path element starting at its
last dot, `""` when the final element has no dot. -/
def extPath (p : List Char) : List Char :=
  let seg := p.reverse.takeWhile (fun c => ¬ c = '/')
  if seg.any (fun c => c = '.') then
    '.' :: (seg.takeWhile (fun c => ¬ c = '.')).reverse
  else []

/-- Go `filepath.Join(a, b, c)` (`/` separators). -/
def joinPath3 (a b c : List Char) : List Char :=
  if a ≠ [] then cleanPath (a ++ '/' :: (b ++ '/' :: c))
  else if b ≠ [] then cleanPath (b ++ '/' :: c)
  else if c ≠ [] then cleanPath c
  else []

/-- `serveRepoFileHTTP` (http_server.go): open the bare repo (missing
repo → 404, other open error → 500), resolve HEAD → commit → tree (any
failure → 500), look the path up in the tree (not found → 404, other →
500), read the blob (failure → 500), and stream it with a MIME type
inferred from the extension (`application/octet-stream` when the table
yields `""`). -/
def serveRepoFileHTTP (mimeByExt : List Char → List Char)
    (openRepo : Except OpenErr GRepo) (filePathInRepo : List Char) :
    HttpResp :=
  match openRepo with
  | .error .notExists => notFoundResp
  | .error .other => internalErrResp
  | .ok repo =>
    match repo.head with
    | .error _ => internalErrResp
    | .ok h =>
      match repo.commitObject h with
      | .error _ => internalErrResp
      | .ok commit =>
        match commit.tree with
        | .error _ => internalErrResp
        | .ok tree =>
          match tree filePathInRepo with
          | .error .fileNotFound => notFoundResp
          | .error .other => internalErrResp
          | .ok file =>
            match file.content with
            | .error _ => internalErrResp
            | .ok data =>
              ⟨200,
                some (if mimeByExt (extPath filePathInRepo) = []
                  then octetStream else mimeByExt (extPath filePathInRepo)),
                some file.size, data⟩

/-- `NewStaticHandler` (http_server.go): per request, trim the leading
`/` from the rewritten URL path, join it under the manifest root, and
serve that path from the pot's bare repository at
`<repoRoot>/<org>/<name>.git`. -/
def NewStaticHandler (mimeByExt : List Char → List Char)
    (fs : List Char → Except OpenErr GRepo)
    (repoRoot org pname root urlPath : List Char) : HttpResp :=
  serveRepoFileHTTP mimeByExt
    (fs (joinPath3 repoRoot org (pname ++ ".git".data)))
    (joinPath root (trimPre ['/'] urlPath))

/-- C8 (amended): for a static pot with document root `root` and request
path `x` (after prefix rewriting), the handler serves exactly the content
of the blob at `Join(root, x)` in the HEAD tree of the pot's bare
repository, with MIME type from the extension (octet-stream when
unknown); a path not found in the tree yields 404; a repository open
error yields 500 — except a missing repository, which yields 404. -/
theorem staticHandler_spec (mimeByExt : List Char → List Char)
    (fs : List Char → Except OpenErr GRepo)
    (repoRoot org pname root urlPath : List Char) :
    (∀ repo h commit tree file data,
      fs (joinPath3 repoRoot org (pname ++ ".git".data)) = .ok repo →
      repo.head = .ok h → repo.commitObject h = .ok commit →
      commit.tree = .ok tree →
      tree (joinPath root (trimPre ['/'] urlPath)) = .ok file →
      file.content = .ok data →
      NewStaticHandler mimeByExt fs repoRoot org pname root urlPath =
        ⟨200,
          some (if mimeByExt (extPath (joinPath root (trimPre ['/'] urlPath)))
              = [] then octetStream
            else mimeByExt (extPath (joinPath root (trimPre ['/'] urlPath)))),
          some file.size, data⟩) ∧
    (∀ repo h commit tree,
      fs (joinPath3 repoRoot org (pname ++ ".git".data)) = .ok repo →
      repo.head = .ok h → repo.commitObject h = .ok commit →
      commit.tree = .ok tree →
      tree (joinPath root (trimPre ['/'] urlPath)) = .error .fileNotFound →
      NewStaticHandler mimeByExt fs repoRoot org pname root urlPath
        = notFoundResp) ∧
    (fs (joinPath3 repoRoot org (pname ++ ".git".data)) = .error .other →
      NewStaticHandler mimeByExt fs repoRoot org pname root urlPath
        = internalErrResp) ∧
    (fs (joinPath3 repoRoot org (pname ++ ".git".data)) = .error .notExists →
      NewStaticHandler mimeByExt fs repoRoot org pname root urlPath
        = notFoundResp) := by
  refine ⟨?_, ?_, ?_, ?_⟩
  · intro repo h commit tree file data h1 h2 h3 h4 h5 h6
    simp only [NewStaticHandler, serveRepoFileHTTP, h1, h2, h3, h4, h5, h6]
  · intro repo h commit tree h1 h2 h3 h4 h5
    simp only [NewStaticHandler, serveRepoFileHTTP, h1, h2, h3, h4, h5]
  · intro h1
    simp only [NewStaticHandler, serveRepoFileHTTP, h1]
  · intro h1
    simp only [NewStaticHandler, serveRepoFileHTTP, h1]

/-- Concrete one-file repository used by the C8 witness and
counterexample: `index.html` under root `www` with known bytes. -/
def demoRepo : GRepo :=
  { head := .ok 0
    commitObject := fun _ => .ok
      { tree := .ok (fun p =>
          if p = "www/index.html".data then .ok ⟨.ok [104, 105], 2⟩
          else .error .fileNotFound) } }

/-- Counterexample to C8 as stated: when opening the repository fails with
`ErrRepositoryNotExists`, the handler responds 404, not the 500 the
claim's "error opening the repository yields 500" requires. -/
theorem staticHandler_counterexample :
    (NewStaticHandler (fun _ => []) (fun _ => .error .notExists)
      "repo".data "o".data "n".data "www".data "/index.html".data).status
      = 404 ∧ (404 : Nat) ≠ 500 :=
  ⟨rfl, by decide⟩

/-- Witness for C8 (amended) at a concrete input: the handler returns the
blob bytes of `www/index.html` with the MIME type of `.html`, and 404 for
a path absent from the tree. -/
theorem staticHandler_spec_witness :
    NewStaticHandler
      (fun e => if e = ".html".data then "text/html".data else [])
      (fun p => if p = "repo/o/n.git".data then .ok demoRepo
        else .error .notExists)
      "repo".data "o".data "n".data "www".data "/index.html".data =
      ⟨200, some "text/html".data, some 2, [104, 105]⟩ ∧
    NewStaticHandler
      (fun e => if e = ".html".data then "text/html".data else [])
      (fun p => if p = "repo/o/n.git".data then .ok demoRepo
        else .error .notExists)
      "repo".data "o".data "n".data "www".data "/missing.txt".data
      = notFoundResp := by
  constructor
  · rw [(staticHandler_spec
        (fun e => if e = ".html".data then "text/html".data else [])
        (fun p => if p = "repo/o/n.git".data then .ok demoRepo
          else .error .notExists)
        "repo".data "o".data "n".data "www".data "/index.html".data).1
        demoRepo 0 _ _ ⟨.ok [104, 105], 2⟩ [104, 105]
        rfl rfl rfl rfl rfl rfl]
    rfl
  · exact (staticHandler_spec
        (fun e => if e = ".html".data then "text/html".data else [])
        (fun p => if p = "repo/o/n.git".data then .ok demoRepo
          else .error .notExists)
        "repo".data "o".data "n".data "www".data "/missing.txt".data).2.1
        demoRepo 0 _ _ rfl rfl rfl rfl rfl

end PotStack
